import Mathlib

/-!
Shallow embedding of `docker_charon/encoder.py` (docker-charon-custom).

The encoder plans which container-image blobs must be bundled into a zip
archive and which are already present at the destination registry, then
writes blobs, manifests and a payload descriptor into the archive.

Registry I/O is modelled by an abstract resolver function; the zip file is
modelled as the ordered trace of entries written into it.  Data types that
live in the `common` module of the repository (absent from the sources at hand:
`Blob`, `Manifest`, `PayloadDescriptor`, the placement classes) are modelled
from the specification and marked as such.
-/

namespace DockerCharon

/-- Modelled from the spec: a `Blob` record from the missing `common` module,
a content-addressed unit of image data with the repository it was observed in. -/
structure Blob where
  digest : String
  repository : String
deriving DecidableEq

/-- Modelled from the spec: the tagged placement variants `BlobPathInZip` and
`BlobLocationInRegistry` from the missing `common` module. -/
inductive BlobPlacement where
  | BlobPathInZip (zip_path : String)
  | BlobLocationInRegistry (repository : String)
deriving DecidableEq

/-- Modelled from the spec: the content of a manifest is either a single
architecture-specific manifest body or a multi-architecture index mapping
platform key to manifest body. -/
inductive ManifestContent where
  | single (body : String)
  | index (entries : List (String × String))
deriving DecidableEq

/-- Modelled from the spec: a resolved `Manifest` from the missing `common`
module; `blobs` is the result of `get_list_of_blobs`. -/
structure Manifest where
  docker_image_name : String
  content : ManifestContent
  blobs : List Blob
deriving DecidableEq

/-- Modelled from the spec: the `PayloadDescriptor` from the missing `common`
module, with the conceptual schema of the spec (images to transfer, manifest
paths, blob placements, skipped images). -/
structure PayloadDescriptor where
  images : List String
  manifests_paths : List (String × String)
  blobs_paths : List (String × BlobPlacement)
  skipped_images : List String
deriving DecidableEq

/-- One entry written into the zip archive: blob bytes streamed from the
registry, a manifest body, or the serialized payload descriptor. -/
inductive ZipContent where
  | blobBytes (digest : String)
  | manifestBody (content : ManifestContent)
  | descriptorJson (descriptor : PayloadDescriptor)
deriving DecidableEq

/-- The zip archive as the ordered trace of (path, content) writes. -/
abbrev ZipTrace := List (String × ZipContent)

/-- Translation of `get_blob_with_same_digest`: linear scan returning the
first blob with the given digest, `None` if absent. -/
def get_blob_with_same_digest : List Blob → String → Option Blob
  | [], _ => none
  | blob :: rest, digest =>
    if blob.digest = digest then some blob
    else get_blob_with_same_digest rest digest

/-- Translation of `download_blob_to_zip`: streams the blob into the zip at
`blobs/<digest>` and returns that path.  The byte stream is abstracted to a
`ZipContent.blobBytes` entry. -/
def download_blob_to_zip (blob : Blob) (zip_file : ZipTrace) : String × ZipTrace :=
  let blob_path_in_zip := "blobs/" ++ blob.digest
  (blob_path_in_zip, zip_file ++ [(blob_path_in_zip, ZipContent.blobBytes blob.digest)])

/-- Loop body of `add_blobs_to_zip`: iterates over `blobs_to_pull` threading
the zip trace and the `blobs_paths` mapping (a Python dict in insertion
order, written only at fresh keys, hence an association list). -/
def add_blobs_to_zip_loop :
    List Blob → List Blob → ZipTrace → List (String × BlobPlacement) →
    ZipTrace × List (String × BlobPlacement)
  | [], _, zip_file, blobs_paths => (zip_file, blobs_paths)
  | blob :: rest, blobs_already_transferred, zip_file, blobs_paths =>
    if blob.digest ∈ blobs_paths.map Prod.fst then
      add_blobs_to_zip_loop rest blobs_already_transferred zip_file blobs_paths
    else
      match get_blob_with_same_digest blobs_already_transferred blob.digest with
      | some dest_blob =>
        add_blobs_to_zip_loop rest blobs_already_transferred zip_file
          (blobs_paths ++
            [(blob.digest, BlobPlacement.BlobLocationInRegistry dest_blob.repository)])
      | none =>
        let pulled := download_blob_to_zip blob zip_file
        add_blobs_to_zip_loop rest blobs_already_transferred pulled.2
          (blobs_paths ++ [(blob.digest, BlobPlacement.BlobPathInZip pulled.1)])

/-- Translation of `add_blobs_to_zip`: returns the updated zip trace and the
`blobs_paths` placement mapping. -/
def add_blobs_to_zip (zip_file : ZipTrace)
    (blobs_to_pull blobs_already_transferred : List Blob) :
    ZipTrace × List (String × BlobPlacement) :=
  add_blobs_to_zip_loop blobs_to_pull blobs_already_transferred zip_file []

/-- Loop body of `uniquify_blobs`, accumulating `result`. -/
def uniquify_blobs_loop : List Blob → List Blob → List Blob
  | [], result => result
  | blob :: rest, result =>
    if blob.digest ∈ result.map Blob.digest then uniquify_blobs_loop rest result
    else uniquify_blobs_loop rest (result ++ [blob])

/-- Translation of `uniquify_blobs`: keeps the first blob of each digest. -/
def uniquify_blobs (blobs : List Blob) : List Blob :=
  uniquify_blobs_loop blobs []

/-- Translation of `separate_images_to_transfer_and_images_to_skip`:
partitions the to-transfer list by membership in the already-transferred
list, preserving order. -/
def separate_images_to_transfer_and_images_to_skip :
    List String → List String → List String × List String
  | [], _ => ([], [])
  | docker_image :: rest, docker_images_already_transferred =>
    let tail := separate_images_to_transfer_and_images_to_skip rest
      docker_images_already_transferred
    if docker_image ∈ docker_images_already_transferred then
      (tail.1, docker_image :: tail.2)
    else
      (docker_image :: tail.1, tail.2)

/-- Registry manifest resolution, abstracted: for an image name it yields the
manifest content and blob list, or an error (manifest-not-found,
authentication, ...). -/
abbrev Resolver (ε : Type) := String → Except ε (ManifestContent × List Blob)

/-- Translation of `get_manifest_and_list_of_blobs_to_pull`: builds the
`Manifest` for an image and pairs it with its blob list.  Errors of the
resolver propagate. -/
def get_manifest_and_list_of_blobs_to_pull {ε : Type} (resolve : Resolver ε)
    (docker_image : String) : Except ε (Manifest × List Blob) :=
  match resolve docker_image with
  | Except.error e => Except.error e
  | Except.ok (content, blobs) =>
    Except.ok ({ docker_image_name := docker_image, content := content,
                 blobs := blobs }, blobs)

/-- Translation of `get_manifests_and_list_of_all_blobs`: resolves each image
in turn, concatenating blob lists; the first resolution failure aborts the
whole call with that error. -/
def get_manifests_and_list_of_all_blobs {ε : Type} (resolve : Resolver ε) :
    List String → Except ε (List Manifest × List Blob)
  | [] => Except.ok ([], [])
  | docker_image :: rest =>
    match get_manifest_and_list_of_blobs_to_pull resolve docker_image with
    | Except.error e => Except.error e
    | Except.ok (manifest, blobs) =>
      match get_manifests_and_list_of_all_blobs resolve rest with
      | Except.error e => Except.error e
      | Except.ok (manifests, all_blobs) =>
        Except.ok (manifest :: manifests, blobs ++ all_blobs)

/-- Modelled from the spec: `PayloadDescriptor.from_images` from the missing
`common` module partitions the images (step 1 of the planner) and records a
deterministic manifest path per needs-work image, with an empty placement
mapping to be filled in later. -/
def PayloadDescriptor.from_images
    (docker_images_to_transfer docker_images_already_transferred : List String) :
    PayloadDescriptor :=
  let separated := separate_images_to_transfer_and_images_to_skip
    docker_images_to_transfer docker_images_already_transferred
  { images := separated.1,
    manifests_paths := separated.1.map (fun i => (i, "manifests/" ++ i)),
    blobs_paths := [],
    skipped_images := separated.2 }

/-- Modelled from the spec: `get_images_not_transferred_yet` yields the
images that still need work. -/
def PayloadDescriptor.get_images_not_transferred_yet (d : PayloadDescriptor) :
    List String :=
  d.images

/-- Translation of the manifest-selection branch of
`create_zip_from_docker_images` (lines 145-148): a multi-architecture index
containing `linux/amd64` contributes exactly the body of that variant, anything
else contributes the whole content unchanged. -/
def select_single_manifest (content : ManifestContent) : ManifestContent :=
  match content with
  | ManifestContent.index entries =>
    match entries.lookup "linux/amd64" with
    | some body => ManifestContent.single body
    | none => content
  | ManifestContent.single _ => content

/-- Translation of `create_zip_from_docker_images`: builds the descriptor,
resolves both image lists, classifies blobs, writes manifests, and finally
writes the serialized descriptor.  The two serialization branches of the
source (pydantic v1/v2) both write the same descriptor and are collapsed
into one `descriptorJson` entry. -/
def create_zip_from_docker_images {ε : Type} (resolve : Resolver ε)
    (docker_images_to_transfer docker_images_already_transferred : List String)
    (zip_file : ZipTrace) : Except ε (ZipTrace × PayloadDescriptor) :=
  let payload_descriptor := PayloadDescriptor.from_images
    docker_images_to_transfer docker_images_already_transferred
  match get_manifests_and_list_of_all_blobs resolve
      payload_descriptor.get_images_not_transferred_yet with
  | Except.error e => Except.error e
  | Except.ok (manifests, blobs_to_pull) =>
    match get_manifests_and_list_of_all_blobs resolve
        docker_images_already_transferred with
    | Except.error e => Except.error e
    | Except.ok (_, blobs_already_transferred) =>
      let added := add_blobs_to_zip zip_file blobs_to_pull blobs_already_transferred
      let descriptor := { payload_descriptor with blobs_paths := added.2 }
      let zip_after_manifests := manifests.foldl
        (fun z manifest =>
          let dest := (descriptor.manifests_paths.lookup
            manifest.docker_image_name).getD ""
          z ++ [(dest, ZipContent.manifestBody
            (select_single_manifest manifest.content))])
        added.1
      Except.ok (zip_after_manifests ++
        [("payload_descriptor.json", ZipContent.descriptorJson descriptor)],
        descriptor)

/-- Specification helper: the placement the planner assigns to a blob given
the already-transferred blob list (the branch structure of
`add_blobs_to_zip` at a fresh digest). -/
def classify_blob (blobs_already_transferred : List Blob) (blob : Blob) :
    BlobPlacement :=
  match get_blob_with_same_digest blobs_already_transferred blob.digest with
  | some dest_blob => BlobPlacement.BlobLocationInRegistry dest_blob.repository
  | none => BlobPlacement.BlobPathInZip ("blobs/" ++ blob.digest)

/-- Specification helper: first-occurrence deduplication relative to a list
of already-seen digests. -/
def uniquify_from : List Blob → List String → List Blob
  | [], _ => []
  | blob :: rest, seen =>
    if blob.digest ∈ seen then uniquify_from rest seen
    else blob :: uniquify_from rest (seen ++ [blob.digest])

/-- Specification helper: the payload descriptor a successful run produces. -/
def planned_descriptor (docker_images_to_transfer
    docker_images_already_transferred : List String)
    (blobs_to_pull blobs_already_transferred : List Blob) : PayloadDescriptor :=
  let separated := separate_images_to_transfer_and_images_to_skip
    docker_images_to_transfer docker_images_already_transferred
  { images := separated.1,
    manifests_paths := separated.1.map (fun i => (i, "manifests/" ++ i)),
    blobs_paths := (uniquify_blobs blobs_to_pull).map
      (fun b => (b.digest, classify_blob blobs_already_transferred b)),
    skipped_images := separated.2 }

/-- Test resolver yielding a fixed single-architecture manifest with no
blobs, used to evaluate the planner on concrete inputs. -/
def witness_resolve : Resolver Unit := fun _ =>
  Except.ok (ManifestContent.single "m", [])

/-- Test resolver failing on every image. -/
def witness_resolve_fail : Resolver Unit := fun _ => Except.error ()

theorem uniquify_blobs_loop_eq (blobs : List Blob) :
    ∀ result : List Blob,
      uniquify_blobs_loop blobs result =
        result ++ uniquify_from blobs (result.map Blob.digest) := by
  induction blobs with
  | nil => intro result; simp [uniquify_blobs_loop, uniquify_from]
  | cons blob rest ih =>
    intro result
    by_cases h : blob.digest ∈ result.map Blob.digest
    · simp [uniquify_blobs_loop, uniquify_from, h, ih]
    · simp only [uniquify_blobs_loop, uniquify_from, if_neg h, ih (result ++ [blob])]
      simp [List.map_append, List.append_assoc]

theorem uniquify_blobs_eq (blobs : List Blob) :
    uniquify_blobs blobs = uniquify_from blobs [] := by
  simp [uniquify_blobs, uniquify_blobs_loop_eq]

theorem uniquify_from_sublist (blobs : List Blob) :
    ∀ seen : List String, (uniquify_from blobs seen).Sublist blobs := by
  induction blobs with
  | nil => intro seen; simp [uniquify_from]
  | cons blob rest ih =>
    intro seen
    by_cases h : blob.digest ∈ seen
    · simp only [uniquify_from, if_pos h]
      exact (ih seen).cons blob
    · simp only [uniquify_from, if_neg h]
      exact (ih (seen ++ [blob.digest])).cons₂ blob

theorem mem_digest_uniquify_from (d : String) (blobs : List Blob) :
    ∀ seen : List String,
      (d ∈ (uniquify_from blobs seen).map Blob.digest ↔
        d ∈ blobs.map Blob.digest ∧ d ∉ seen) := by
  induction blobs with
  | nil => intro seen; simp [uniquify_from]
  | cons blob rest ih =>
    intro seen
    by_cases h : blob.digest ∈ seen
    · simp only [uniquify_from, if_pos h, ih, List.map_cons, List.mem_cons]
      constructor
      · rintro ⟨hmem, hns⟩; exact ⟨Or.inr hmem, hns⟩
      · rintro ⟨hmem | hmem, hns⟩
        · exact absurd (hmem ▸ h) hns
        · exact ⟨hmem, hns⟩
    · simp only [uniquify_from, if_neg h, List.map_cons, List.mem_cons, ih]
      constructor
      · rintro (rfl | ⟨hmem, hns⟩)
        · exact ⟨Or.inl rfl, h⟩
        · refine ⟨Or.inr hmem, fun hd2 => hns ?_⟩
          exact List.mem_append.mpr (Or.inl hd2)
      · rintro ⟨rfl | hmem, hns⟩
        · exact Or.inl rfl
        · by_cases hd2 : d = blob.digest
          · exact Or.inl hd2
          · refine Or.inr ⟨hmem, fun hc => ?_⟩
            rcases List.mem_append.mp hc with hc | hc
            · exact hns hc
            · exact hd2 (List.mem_singleton.mp hc)

theorem nodup_digest_uniquify_from (blobs : List Blob) :
    ∀ seen : List String, ((uniquify_from blobs seen).map Blob.digest).Nodup := by
  induction blobs with
  | nil => intro seen; simp [uniquify_from]
  | cons blob rest ih =>
    intro seen
    by_cases h : blob.digest ∈ seen
    · simp only [uniquify_from, if_pos h]; exact ih seen
    · simp only [uniquify_from, if_neg h, List.map_cons, List.nodup_cons]
      refine ⟨fun hmem => ?_, ih (seen ++ [blob.digest])⟩
      rcases (mem_digest_uniquify_from blob.digest rest
        (seen ++ [blob.digest])).1 hmem with ⟨-, hns⟩
      exact hns (by simp)

theorem find?_uniquify_from (d : String) (blobs : List Blob) :
    ∀ seen : List String, d ∉ seen →
      (uniquify_from blobs seen).find? (fun b => b.digest == d) =
        blobs.find? (fun b => b.digest == d) := by
  induction blobs with
  | nil => intro seen _; simp [uniquify_from]
  | cons blob rest ih =>
    intro seen hd
    by_cases h : blob.digest ∈ seen
    · have hne : (blob.digest == d) = false := by
        simp only [beq_eq_false_iff_ne, ne_eq]
        intro heq; exact hd (heq ▸ h)
      simp only [uniquify_from, if_pos h, List.find?_cons, hne]
      exact ih seen hd
    · by_cases heq : blob.digest = d
      · have htrue : (blob.digest == d) = true := by simp [heq]
        simp only [uniquify_from, if_neg h, List.find?_cons, htrue]
      · have hne : (blob.digest == d) = false := by
          simp [beq_eq_false_iff_ne, heq]
        simp only [uniquify_from, if_neg h, List.find?_cons, hne]
        refine ih (seen ++ [blob.digest]) ?_
        simp only [List.mem_append, List.mem_singleton]
        rintro (hc | hc)
        · exact hd hc
        · exact heq hc.symm

theorem uniquify_from_eq_self (blobs : List Blob) :
    ∀ seen : List String, (∀ b ∈ blobs, b.digest ∉ seen) →
      (blobs.map Blob.digest).Nodup → uniquify_from blobs seen = blobs := by
  induction blobs with
  | nil => intro seen _ _; simp [uniquify_from]
  | cons blob rest ih =>
    intro seen hseen hnodup
    have h : blob.digest ∉ seen := hseen blob (List.mem_cons_self blob rest)
    simp only [List.map_cons, List.nodup_cons] at hnodup
    simp only [uniquify_from, if_neg h, List.cons.injEq, true_and]
    refine ih (seen ++ [blob.digest]) ?_ hnodup.2
    intro b hb
    intro hc
    rcases List.mem_append.mp hc with hc | hc
    · exact hseen b (List.mem_cons_of_mem blob hb) hc
    · have : b.digest = blob.digest := List.mem_singleton.mp hc
      exact hnodup.1 (this ▸ List.mem_map_of_mem Blob.digest hb)

theorem uniquify_blobs_idem (blobs : List Blob) :
    uniquify_blobs (uniquify_blobs blobs) = uniquify_blobs blobs := by
  rw [uniquify_blobs_eq, uniquify_blobs_eq blobs]
  exact uniquify_from_eq_self (uniquify_from blobs []) []
    (fun b _ hc => (List.not_mem_nil b.digest) hc)
    (nodup_digest_uniquify_from blobs [])

theorem get_blob_with_same_digest_eq_find? (list_of_blobs : List Blob)
    (digest : String) :
    get_blob_with_same_digest list_of_blobs digest =
      list_of_blobs.find? (fun b => b.digest == digest) := by
  induction list_of_blobs with
  | nil => simp [get_blob_with_same_digest]
  | cons blob rest ih =>
    by_cases h : blob.digest = digest
    · have htrue : (blob.digest == digest) = true := by simp [h]
      simp [get_blob_with_same_digest, h, List.find?_cons, htrue]
    · have hne : (blob.digest == digest) = false := by
        simp [beq_eq_false_iff_ne, h]
      simp [get_blob_with_same_digest, h, List.find?_cons, hne, ih]

theorem get_blob_with_same_digest_none_iff (list_of_blobs : List Blob)
    (digest : String) :
    get_blob_with_same_digest list_of_blobs digest = none ↔
      ∀ b ∈ list_of_blobs, b.digest ≠ digest := by
  rw [get_blob_with_same_digest_eq_find?, List.find?_eq_none]
  constructor
  · intro h b hb heq
    have := h b hb
    simp [heq] at this
  · intro h b hb
    simp [h b hb]

theorem get_blob_with_same_digest_uniquify (blobs : List Blob) (digest : String) :
    get_blob_with_same_digest (uniquify_blobs blobs) digest =
      get_blob_with_same_digest blobs digest := by
  rw [get_blob_with_same_digest_eq_find?, get_blob_with_same_digest_eq_find?,
    uniquify_blobs_eq]
  exact find?_uniquify_from digest blobs [] (List.not_mem_nil digest)

theorem add_blobs_to_zip_loop_eq (blobs_to_pull : List Blob)
    (blobs_already_transferred : List Blob) :
    ∀ (zip_file : ZipTrace) (blobs_paths : List (String × BlobPlacement)),
      add_blobs_to_zip_loop blobs_to_pull blobs_already_transferred zip_file
          blobs_paths =
        (zip_file ++
          ((uniquify_from blobs_to_pull (blobs_paths.map Prod.fst)).filter
            (fun b => (get_blob_with_same_digest blobs_already_transferred
              b.digest).isNone)).map
            (fun b => ("blobs/" ++ b.digest, ZipContent.blobBytes b.digest)),
         blobs_paths ++
          (uniquify_from blobs_to_pull (blobs_paths.map Prod.fst)).map
            (fun b => (b.digest, classify_blob blobs_already_transferred b))) := by
  induction blobs_to_pull with
  | nil => intro zip_file blobs_paths; simp [add_blobs_to_zip_loop, uniquify_from]
  | cons blob rest ih =>
    intro zip_file blobs_paths
    by_cases h : blob.digest ∈ blobs_paths.map Prod.fst
    · simp [add_blobs_to_zip_loop, uniquify_from, h, ih]
    · rcases hget : get_blob_with_same_digest blobs_already_transferred
        blob.digest with _ | dest_blob
      · simp only [add_blobs_to_zip_loop, if_neg h, hget, download_blob_to_zip,
          ih]
        have hclass : classify_blob blobs_already_transferred blob =
            BlobPlacement.BlobPathInZip ("blobs/" ++ blob.digest) := by
          simp [classify_blob, hget]
        simp only [uniquify_from, if_neg h, List.map_append, List.map_cons,
          List.filter_cons, hget, Option.isNone_none, hclass]
        simp [List.append_assoc]
      · simp only [add_blobs_to_zip_loop, if_neg h, hget, ih]
        have hclass : classify_blob blobs_already_transferred blob =
            BlobPlacement.BlobLocationInRegistry dest_blob.repository := by
          simp [classify_blob, hget]
        simp only [uniquify_from, if_neg h, List.map_append, List.map_cons,
          List.filter_cons, hget, Option.isNone_some, hclass]
        simp [List.append_assoc]

theorem add_blobs_to_zip_eq (zip_file : ZipTrace)
    (blobs_to_pull blobs_already_transferred : List Blob) :
    add_blobs_to_zip zip_file blobs_to_pull blobs_already_transferred =
      (zip_file ++
        ((uniquify_blobs blobs_to_pull).filter
          (fun b => (get_blob_with_same_digest blobs_already_transferred
            b.digest).isNone)).map
          (fun b => ("blobs/" ++ b.digest, ZipContent.blobBytes b.digest)),
       (uniquify_blobs blobs_to_pull).map
        (fun b => (b.digest, classify_blob blobs_already_transferred b))) := by
  rw [add_blobs_to_zip, add_blobs_to_zip_loop_eq, uniquify_blobs_eq]
  rfl

theorem lookup_map_digest {α : Type} (f : Blob → α) (blobs : List Blob) (b : Blob) :
    (blobs.map Blob.digest).Nodup → b ∈ blobs →
      (blobs.map (fun x => (x.digest, f x))).lookup b.digest = some (f b) := by
  induction blobs with
  | nil => intro _ h; exact absurd h (List.not_mem_nil b)
  | cons a rest ih =>
    intro hnodup hmem
    simp only [List.map_cons, List.nodup_cons] at hnodup
    rcases List.mem_cons.mp hmem with rfl | hmem
    · simp [List.lookup]
    · have hne : b.digest ≠ a.digest := fun hc =>
        hnodup.1 (hc ▸ List.mem_map_of_mem Blob.digest hmem)
      have hbeq : (b.digest == a.digest) = false := by simp [hne]
      simp only [List.map_cons, List.lookup, hbeq]
      exact ih hnodup.2 hmem

theorem lookup_map_self {α : Type} (f : String → α) (l : List String) (i : String) :
    i ∈ l → (l.map (fun x => (x, f x))).lookup i = some (f i) := by
  induction l with
  | nil => intro h; exact absurd h (List.not_mem_nil i)
  | cons a rest ih =>
    intro hmem
    rcases List.mem_cons.mp hmem with rfl | hmem
    · simp [List.lookup]
    · by_cases h : i = a
      · simp [List.lookup, h]
      · have hbeq : (i == a) = false := by simp [h]
        simp only [List.map_cons, List.lookup, hbeq]
        exact ih hmem

theorem lookup_map_self_none {α : Type} (f : String → α) (l : List String)
    (i : String) :
    i ∉ l → (l.map (fun x => (x, f x))).lookup i = none := by
  induction l with
  | nil => intro _; simp
  | cons a rest ih =>
    intro hmem
    have hne : i ≠ a := fun hc => hmem (hc ▸ List.mem_cons_self a rest)
    have hbeq : (i == a) = false := by simp [hne]
    simp only [List.map_cons, List.lookup, hbeq]
    exact ih (fun hc => hmem (List.mem_cons_of_mem a hc))

theorem foldl_append_map {α β : Type} (f : α → β) :
    ∀ (l : List α) (init : List β),
      l.foldl (fun z x => z ++ [f x]) init = init ++ l.map f := by
  intro l
  induction l with
  | nil => intro init; simp
  | cons a rest ih =>
    intro init
    simp [List.foldl_cons, ih, List.append_assoc]

theorem get_manifests_ok_names {ε : Type} (resolve : Resolver ε) :
    ∀ (images : List String) (manifests : List Manifest) (blobs : List Blob),
      get_manifests_and_list_of_all_blobs resolve images =
        Except.ok (manifests, blobs) →
      manifests.map Manifest.docker_image_name = images := by
  intro images
  induction images with
  | nil =>
    intro manifests blobs h
    simp only [get_manifests_and_list_of_all_blobs] at h
    injection h with h
    injection h with h1 h2
    rw [← h1]
    simp
  | cons img rest ih =>
    intro manifests blobs h
    simp only [get_manifests_and_list_of_all_blobs,
      get_manifest_and_list_of_blobs_to_pull] at h
    rcases hres : resolve img with e | cb
    · rw [hres] at h; exact absurd h (by simp)
    · rw [hres] at h
      rcases hrest : get_manifests_and_list_of_all_blobs resolve rest with e | mb
      · rw [hrest] at h; exact absurd h (by simp)
      · rw [hrest] at h
        injection h with h
        injection h with h1 h2
        rw [← h1, List.map_cons]
        rw [ih mb.1 mb.2 (by rw [hrest])]

theorem get_manifests_error_of {ε : Type} (resolve : Resolver ε) :
    ∀ images : List String,
      (∃ img ∈ images, ∃ e, resolve img = Except.error e) →
      ∃ e, get_manifests_and_list_of_all_blobs resolve images =
          Except.error e ∧
        ∃ img ∈ images, resolve img = Except.error e := by
  intro images
  induction images with
  | nil => rintro ⟨img, hmem, _⟩; exact absurd hmem (List.not_mem_nil img)
  | cons i rest ih =>
    rintro ⟨img, hmem, e, herr⟩
    rcases hres : resolve i with e0 | cb
    · refine ⟨e0, ?_, i, List.mem_cons_self i rest, hres⟩
      simp [get_manifests_and_list_of_all_blobs,
        get_manifest_and_list_of_blobs_to_pull, hres]
    · have hmem2 : img ∈ rest := by
        rcases List.mem_cons.mp hmem with rfl | hmem2
        · rw [hres] at herr; exact absurd herr (by simp)
        · exact hmem2
      rcases ih ⟨img, hmem2, e, herr⟩ with ⟨e1, hrest, img1, hmem1, herr1⟩
      refine ⟨e1, ?_, img1, List.mem_cons_of_mem i hmem1, herr1⟩
      simp [get_manifests_and_list_of_all_blobs,
        get_manifest_and_list_of_blobs_to_pull, hres, hrest]

theorem create_zip_from_docker_images_eq {ε : Type} (resolve : Resolver ε)
    (t a : List String) (zip_file : ZipTrace)
    (manifests ms2 : List Manifest) (blobs_to_pull blobs_already : List Blob)
    (hneeds : get_manifests_and_list_of_all_blobs resolve
      (separate_images_to_transfer_and_images_to_skip t a).1 =
      Except.ok (manifests, blobs_to_pull))
    (halready : get_manifests_and_list_of_all_blobs resolve a =
      Except.ok (ms2, blobs_already)) :
    create_zip_from_docker_images resolve t a zip_file =
      Except.ok
        (zip_file ++
          ((uniquify_blobs blobs_to_pull).filter
            (fun b => (get_blob_with_same_digest blobs_already
              b.digest).isNone)).map
            (fun b => ("blobs/" ++ b.digest, ZipContent.blobBytes b.digest)) ++
          manifests.map (fun m => ("manifests/" ++ m.docker_image_name,
            ZipContent.manifestBody (select_single_manifest m.content))) ++
          [("payload_descriptor.json", ZipContent.descriptorJson
            (planned_descriptor t a blobs_to_pull blobs_already))],
        planned_descriptor t a blobs_to_pull blobs_already) := by
  have hnames := get_manifests_ok_names resolve _ manifests blobs_to_pull hneeds
  simp only [create_zip_from_docker_images, PayloadDescriptor.from_images,
    PayloadDescriptor.get_images_not_transferred_yet, hneeds, halready,
    add_blobs_to_zip_eq, planned_descriptor]
  rw [foldl_append_map (fun m : Manifest =>
    ((((separate_images_to_transfer_and_images_to_skip t a).1.map
      (fun i => (i, "manifests/" ++ i))).lookup m.docker_image_name).getD "",
      ZipContent.manifestBody (select_single_manifest m.content)))]
  have hmap : manifests.map (fun m : Manifest =>
      ((((separate_images_to_transfer_and_images_to_skip t a).1.map
        (fun i => (i, "manifests/" ++ i))).lookup m.docker_image_name).getD "",
        ZipContent.manifestBody (select_single_manifest m.content))) =
      manifests.map (fun m => ("manifests/" ++ m.docker_image_name,
        ZipContent.manifestBody (select_single_manifest m.content))) := by
    refine List.map_congr_left ?_
    intro m hm
    have hmem : m.docker_image_name ∈
        (separate_images_to_transfer_and_images_to_skip t a).1 := by
      rw [← hnames]
      exact List.mem_map_of_mem Manifest.docker_image_name hm
    rw [lookup_map_self (fun i => "manifests/" ++ i) _ _ hmem]
    rfl
  rw [hmap]

theorem countP_digest_eq_one (blobs : List Blob) (b : Blob)
    (hnodup : (blobs.map Blob.digest).Nodup) (hmem : b ∈ blobs) :
    blobs.countP (fun y => y.digest == b.digest) = 1 := by
  induction blobs with
  | nil => exact absurd hmem (List.not_mem_nil b)
  | cons a rest ih =>
    simp only [List.map_cons, List.nodup_cons] at hnodup
    rcases List.mem_cons.mp hmem with rfl | hmem2
    · have hzero : rest.countP (fun y => y.digest == b.digest) = 0 := by
        rw [List.countP_eq_zero]
        intro y hy hc
        simp only [beq_iff_eq] at hc
        exact hnodup.1 (hc ▸ List.mem_map_of_mem Blob.digest hy)
      rw [List.countP_cons_of_pos _ _ (by simp), hzero]
    · have hne : a.digest ≠ b.digest := by
        intro hc
        exact hnodup.1 (hc ▸ List.mem_map_of_mem Blob.digest hmem2)
      rw [List.countP_cons_of_neg _ _ (by simp [hne])]
      exact ih hnodup.2 hmem2

theorem mem_uniquify_of_find? (blobs : List Blob) (b : Blob)
    (hfirst : blobs.find? (fun x => x.digest == b.digest) = some b) :
    b ∈ uniquify_blobs blobs := by
  have h := find?_uniquify_from b.digest blobs [] (List.not_mem_nil b.digest)
  rw [← uniquify_blobs_eq, hfirst] at h
  exact List.mem_of_find?_eq_some h

theorem lookup_add_blobs (zip_file : ZipTrace)
    (blobs_to_pull blobs_already_transferred : List Blob) (b : Blob)
    (hfirst : blobs_to_pull.find? (fun x => x.digest == b.digest) = some b) :
    (add_blobs_to_zip zip_file blobs_to_pull
      blobs_already_transferred).2.lookup b.digest =
      some (classify_blob blobs_already_transferred b) := by
  rw [add_blobs_to_zip_eq]
  exact lookup_map_digest (classify_blob blobs_already_transferred) _ b
    (uniquify_blobs_eq blobs_to_pull ▸ nodup_digest_uniquify_from blobs_to_pull [])
    (mem_uniquify_of_find? blobs_to_pull b hfirst)

theorem blobs_path_ne_descriptor (s : String) :
    "blobs/" ++ s ≠ "payload_descriptor.json" := by
  intro h
  have hd := congrArg String.data h
  rw [String.data_append] at hd
  have h1 : "blobs/".data = ['b', 'l', 'o', 'b', 's', '/'] := rfl
  have h2 : "payload_descriptor.json".data =
      ['p', 'a', 'y', 'l', 'o', 'a', 'd', '_', 'd', 'e', 's', 'c', 'r', 'i',
       'p', 't', 'o', 'r', '.', 'j', 's', 'o', 'n'] := rfl
  rw [h1, h2] at hd
  simp only [List.cons_append] at hd
  injection hd with hhead _
  exact absurd hhead (by decide)

theorem manifests_path_ne_descriptor (s : String) :
    "manifests/" ++ s ≠ "payload_descriptor.json" := by
  intro h
  have hd := congrArg String.data h
  rw [String.data_append] at hd
  have h1 : "manifests/".data =
      ['m', 'a', 'n', 'i', 'f', 'e', 's', 't', 's', '/'] := rfl
  have h2 : "payload_descriptor.json".data =
      ['p', 'a', 'y', 'l', 'o', 'a', 'd', '_', 'd', 'e', 's', 'c', 'r', 'i',
       'p', 't', 'o', 'r', '.', 'j', 's', 'o', 'n'] := rfl
  rw [h1, h2] at hd
  simp only [List.cons_append] at hd
  injection hd with hhead _
  exact absurd hhead (by decide)

theorem create_zip_ok_elim {ε : Type} (resolve : Resolver ε)
    (t a : List String) (zip_file : ZipTrace) (trace : ZipTrace)
    (d : PayloadDescriptor)
    (hok : create_zip_from_docker_images resolve t a zip_file =
      Except.ok (trace, d)) :
    ∃ (manifests ms2 : List Manifest) (blobs_to_pull blobs_already : List Blob),
      get_manifests_and_list_of_all_blobs resolve
        (separate_images_to_transfer_and_images_to_skip t a).1 =
        Except.ok (manifests, blobs_to_pull) ∧
      get_manifests_and_list_of_all_blobs resolve a =
        Except.ok (ms2, blobs_already) ∧
      trace = zip_file ++
        ((uniquify_blobs blobs_to_pull).filter
          (fun b => (get_blob_with_same_digest blobs_already
            b.digest).isNone)).map
          (fun b => ("blobs/" ++ b.digest, ZipContent.blobBytes b.digest)) ++
        manifests.map (fun m => ("manifests/" ++ m.docker_image_name,
          ZipContent.manifestBody (select_single_manifest m.content))) ++
        [("payload_descriptor.json", ZipContent.descriptorJson
          (planned_descriptor t a blobs_to_pull blobs_already))] ∧
      d = planned_descriptor t a blobs_to_pull blobs_already := by
  rcases hneeds : get_manifests_and_list_of_all_blobs resolve
      (separate_images_to_transfer_and_images_to_skip t a).1 with
    e | ⟨manifests, blobs_to_pull⟩
  · rw [create_zip_from_docker_images] at hok
    simp only [PayloadDescriptor.from_images,
      PayloadDescriptor.get_images_not_transferred_yet] at hok
    rw [hneeds] at hok
    exact absurd hok (by simp)
  · rcases halready : get_manifests_and_list_of_all_blobs resolve a with
      e | ⟨ms2, blobs_already⟩
    · rw [create_zip_from_docker_images] at hok
      simp only [PayloadDescriptor.from_images,
        PayloadDescriptor.get_images_not_transferred_yet] at hok
      rw [hneeds, halready] at hok
      exact absurd hok (by simp)
    · have heq := create_zip_from_docker_images_eq resolve t a zip_file
        manifests ms2 blobs_to_pull blobs_already hneeds halready
      rw [heq] at hok
      injection hok with hok
      injection hok with h1 h2
      exact ⟨manifests, ms2, blobs_to_pull, blobs_already, rfl, rfl,
        h1.symm, h2.symm⟩

theorem separate_images_eq_filter (t a : List String) :
    separate_images_to_transfer_and_images_to_skip t a =
      (t.filter (fun i => decide (i ∉ a)), t.filter (fun i => decide (i ∈ a))) := by
  induction t with
  | nil => simp [separate_images_to_transfer_and_images_to_skip]
  | cons i rest ih =>
    by_cases h : i ∈ a
    · simp [separate_images_to_transfer_and_images_to_skip, h, ih,
        List.filter_cons]
    · simp [separate_images_to_transfer_and_images_to_skip, h, ih,
        List.filter_cons]

/-- Claim C4: `uniquify_blobs` returns the blobs in first-occurrence order
with later duplicates dropped: the output is a subsequence of the input, its
digests are exactly those of the input and contain no duplicate, the blob
kept for each digest is the first input blob bearing it, and applying
`uniquify_blobs` twice equals applying it once. -/
theorem uniquify_blobs_spec (blobs : List Blob) :
    (uniquify_blobs blobs).Sublist blobs ∧
    ((uniquify_blobs blobs).map Blob.digest).Nodup ∧
    (∀ d : String, d ∈ (uniquify_blobs blobs).map Blob.digest ↔
      d ∈ blobs.map Blob.digest) ∧
    (∀ d : String, (uniquify_blobs blobs).find? (fun b => b.digest == d) =
      blobs.find? (fun b => b.digest == d)) ∧
    uniquify_blobs (uniquify_blobs blobs) = uniquify_blobs blobs := by
  refine ⟨?_, ?_, ?_, ?_, uniquify_blobs_idem blobs⟩
  · rw [uniquify_blobs_eq]; exact uniquify_from_sublist blobs []
  · rw [uniquify_blobs_eq]; exact nodup_digest_uniquify_from blobs []
  · intro d
    rw [uniquify_blobs_eq, mem_digest_uniquify_from]
    simp
  · intro d
    rw [uniquify_blobs_eq]
    exact find?_uniquify_from d blobs [] (List.not_mem_nil d)

/-- Claim C1: the mapping returned by `add_blobs_to_zip` contains exactly one
placement entry per distinct digest of the to-transfer list, and that entry
is determined by the first occurrence of the digest; later occurrences of a
digest contribute nothing, so running on the deduplicated list gives the
same result. -/
theorem add_blobs_to_zip_one_placement_per_digest (zip_file : ZipTrace)
    (blobs_to_pull blobs_already_transferred : List Blob) :
    ((add_blobs_to_zip zip_file blobs_to_pull
      blobs_already_transferred).2.map Prod.fst).Nodup ∧
    (∀ d : String,
      d ∈ (add_blobs_to_zip zip_file blobs_to_pull
        blobs_already_transferred).2.map Prod.fst ↔
      d ∈ blobs_to_pull.map Blob.digest) ∧
    (∀ b : Blob, blobs_to_pull.find? (fun x => x.digest == b.digest) = some b →
      (add_blobs_to_zip zip_file blobs_to_pull
        blobs_already_transferred).2.lookup b.digest =
        some (classify_blob blobs_already_transferred b)) ∧
    add_blobs_to_zip zip_file blobs_to_pull blobs_already_transferred =
      add_blobs_to_zip zip_file (uniquify_blobs blobs_to_pull)
        blobs_already_transferred := by
  refine ⟨?_, ?_, ?_, ?_⟩
  · rw [add_blobs_to_zip_eq]
    simp only [List.map_map]
    have : (Prod.fst ∘ fun b : Blob =>
        (b.digest, classify_blob blobs_already_transferred b)) = Blob.digest := by
      funext b; rfl
    rw [this, uniquify_blobs_eq]
    exact nodup_digest_uniquify_from blobs_to_pull []
  · intro d
    rw [add_blobs_to_zip_eq]
    simp only [List.map_map]
    have : (Prod.fst ∘ fun b : Blob =>
        (b.digest, classify_blob blobs_already_transferred b)) = Blob.digest := by
      funext b; rfl
    rw [this, uniquify_blobs_eq, mem_digest_uniquify_from]
    simp
  · intro b hfirst
    exact lookup_add_blobs zip_file blobs_to_pull blobs_already_transferred b
      hfirst
  · rw [add_blobs_to_zip_eq, add_blobs_to_zip_eq, uniquify_blobs_idem]

/-- Claim C2: when a first-occurrence blob of the to-transfer list has a
blob of equal digest in the already-transferred list, the placement recorded
is `BlobLocationInRegistry` with the repository of that first match, and no
blob pull is issued for the digest: no blob bytes for it are written to the
zip. -/
theorem add_blobs_to_zip_already_transferred (zip_file : ZipTrace)
    (blobs_to_pull blobs_already_transferred : List Blob) (b dest_blob : Blob)
    (hfirst : blobs_to_pull.find? (fun x => x.digest == b.digest) = some b)
    (hdest : get_blob_with_same_digest blobs_already_transferred b.digest =
      some dest_blob) :
    (add_blobs_to_zip zip_file blobs_to_pull
      blobs_already_transferred).2.lookup b.digest =
      some (BlobPlacement.BlobLocationInRegistry dest_blob.repository) ∧
    ∃ appended : ZipTrace,
      (add_blobs_to_zip zip_file blobs_to_pull
        blobs_already_transferred).1 = zip_file ++ appended ∧
      ∀ entry ∈ appended, entry.2 ≠ ZipContent.blobBytes b.digest := by
  constructor
  · rw [lookup_add_blobs zip_file blobs_to_pull blobs_already_transferred b
      hfirst]
    simp [classify_blob, hdest]
  · rw [add_blobs_to_zip_eq]
    refine ⟨_, rfl, ?_⟩
    intro entry hentry
    rcases List.mem_map.mp hentry with ⟨x, hx, hxe⟩
    rcases List.mem_filter.mp hx with ⟨-, hxnone⟩
    intro hcontra
    rw [← hxe] at hcontra
    simp only [ZipContent.blobBytes.injEq] at hcontra
    rw [hcontra, hdest] at hxnone
    simp at hxnone

/-- Claim C5: a first-occurrence blob of the to-transfer list whose digest is
absent from the already-transferred list is pulled exactly once, its bytes
are stored in the zip at path `blobs/<digest>`, and the placement recorded
for its digest is `BlobPathInZip` with that path. -/
theorem add_blobs_to_zip_bundles_fresh (zip_file : ZipTrace)
    (blobs_to_pull blobs_already_transferred : List Blob) (b : Blob)
    (hfirst : blobs_to_pull.find? (fun x => x.digest == b.digest) = some b)
    (hnone : get_blob_with_same_digest blobs_already_transferred b.digest =
      none) :
    (add_blobs_to_zip zip_file blobs_to_pull
      blobs_already_transferred).2.lookup b.digest =
      some (BlobPlacement.BlobPathInZip ("blobs/" ++ b.digest)) ∧
    ∃ appended : ZipTrace,
      (add_blobs_to_zip zip_file blobs_to_pull
        blobs_already_transferred).1 = zip_file ++ appended ∧
      appended.countP (fun entry => entry ==
        ("blobs/" ++ b.digest, ZipContent.blobBytes b.digest)) = 1 := by
  constructor
  · rw [lookup_add_blobs zip_file blobs_to_pull blobs_already_transferred b
      hfirst]
    simp [classify_blob, hnone]
  · rw [add_blobs_to_zip_eq]
    refine ⟨_, rfl, ?_⟩
    rw [List.countP_map]
    have hsub : ((uniquify_blobs blobs_to_pull).filter
        (fun y => (get_blob_with_same_digest blobs_already_transferred
          y.digest).isNone)).map Blob.digest |>.Nodup := by
      refine List.Nodup.sublist (List.Sublist.map Blob.digest
        (List.filter_sublist _)) ?_
      rw [uniquify_blobs_eq]
      exact nodup_digest_uniquify_from blobs_to_pull []
    have hmem : b ∈ (uniquify_blobs blobs_to_pull).filter
        (fun y => (get_blob_with_same_digest blobs_already_transferred
          y.digest).isNone) := by
      refine List.mem_filter.mpr ⟨mem_uniquify_of_find? blobs_to_pull b hfirst,
        ?_⟩
      rw [hnone]; rfl
    refine Eq.trans (List.countP_congr ?_)
      (countP_digest_eq_one _ b hsub hmem)
    intro x hx
    by_cases h : x.digest = b.digest
    · simp [h]
    · simp [h]

/-- Claim C9: `add_blobs_to_zip` behaves as if both blob lists had been
deduplicated first: the zip trace (hence the pulled digests, in order) and
the placement mapping are identical to running it on
`uniquify_blobs` of both lists. -/
theorem add_blobs_to_zip_dedup_refinement (zip_file : ZipTrace)
    (blobs_to_pull blobs_already_transferred : List Blob) :
    add_blobs_to_zip zip_file blobs_to_pull blobs_already_transferred =
      add_blobs_to_zip zip_file (uniquify_blobs blobs_to_pull)
        (uniquify_blobs blobs_already_transferred) := by
  rw [add_blobs_to_zip_eq, add_blobs_to_zip_eq, uniquify_blobs_idem]
  have hcl : classify_blob (uniquify_blobs blobs_already_transferred) =
      classify_blob blobs_already_transferred := by
    funext x
    simp [classify_blob, get_blob_with_same_digest_uniquify]
  rw [hcl]
  have hfl : (fun b : Blob => (get_blob_with_same_digest
      (uniquify_blobs blobs_already_transferred) b.digest).isNone) =
      (fun b : Blob => (get_blob_with_same_digest blobs_already_transferred
        b.digest).isNone) := by
    funext x
    rw [get_blob_with_same_digest_uniquify]
  rw [hfl]

/-- Claim C10: `get_blob_with_same_digest` returns the first blob of the list
with the given digest and `none` exactly when no blob has it; consequently
when several already-transferred blobs share the digest, the repository
recorded in the placement is that of the earliest occurrence. -/
theorem get_blob_with_same_digest_spec :
    (∀ (list_of_blobs : List Blob) (digest : String),
      get_blob_with_same_digest list_of_blobs digest =
        list_of_blobs.find? (fun b => b.digest == digest)) ∧
    (∀ (list_of_blobs : List Blob) (digest : String),
      get_blob_with_same_digest list_of_blobs digest = none ↔
        ∀ b ∈ list_of_blobs, b.digest ≠ digest) ∧
    (∀ (front back : List Blob) (t : Blob) (digest : String),
      t.digest = digest → (∀ x ∈ front, x.digest ≠ digest) →
      get_blob_with_same_digest (front ++ t :: back) digest = some t) ∧
    (∀ (zip_file : ZipTrace) (blobs_to_pull front back : List Blob)
      (t b : Blob),
      blobs_to_pull.find? (fun x => x.digest == b.digest) = some b →
      t.digest = b.digest → (∀ x ∈ front, x.digest ≠ b.digest) →
      (add_blobs_to_zip zip_file blobs_to_pull
        (front ++ t :: back)).2.lookup b.digest =
        some (BlobPlacement.BlobLocationInRegistry t.repository)) := by
  have hfirstmatch : ∀ (front back : List Blob) (t : Blob) (digest : String),
      t.digest = digest → (∀ x ∈ front, x.digest ≠ digest) →
      get_blob_with_same_digest (front ++ t :: back) digest = some t := by
    intro front
    induction front with
    | nil =>
      intro back t digest ht _
      simp [get_blob_with_same_digest, ht]
    | cons x rest ih =>
      intro back t digest ht hne
      have hx : x.digest ≠ digest := hne x (List.mem_cons_self x rest)
      simp only [List.cons_append, get_blob_with_same_digest, if_neg hx]
      exact ih back t digest ht
        (fun y hy => hne y (List.mem_cons_of_mem x hy))
  refine ⟨get_blob_with_same_digest_eq_find?,
    get_blob_with_same_digest_none_iff, hfirstmatch, ?_⟩
  intro zip_file blobs_to_pull front back t b hfirst ht hne
  rw [lookup_add_blobs zip_file blobs_to_pull (front ++ t :: back) b hfirst]
  rw [classify_blob, hfirstmatch front back t b.digest ht hne]

/-- Claim C3: for the manifests written by `create_zip_from_docker_images`,
a multi-architecture index containing a `linux/amd64` variant contributes
exactly the body of that variant, a single manifest body is written whole and
unchanged, and the archive entry of every resolved manifest carries the selected
body. -/
theorem create_zip_manifest_selection {ε : Type} :
    (∀ (entries : List (String × String)) (body : String),
      entries.lookup "linux/amd64" = some body →
      select_single_manifest (ManifestContent.index entries) =
        ManifestContent.single body) ∧
    (∀ body : String,
      select_single_manifest (ManifestContent.single body) =
        ManifestContent.single body) ∧
    (∀ (resolve : Resolver ε) (t a : List String) (zip_file trace : ZipTrace)
      (d : PayloadDescriptor) (manifests : List Manifest) (blobs : List Blob),
      get_manifests_and_list_of_all_blobs resolve
        (separate_images_to_transfer_and_images_to_skip t a).1 =
        Except.ok (manifests, blobs) →
      create_zip_from_docker_images resolve t a zip_file =
        Except.ok (trace, d) →
      ∀ m ∈ manifests,
        ("manifests/" ++ m.docker_image_name,
          ZipContent.manifestBody (select_single_manifest m.content)) ∈
          trace) := by
  refine ⟨?_, ?_, ?_⟩
  · intro entries body h
    simp [select_single_manifest, h]
  · intro body
    rfl
  · intro resolve t a zip_file trace d manifests blobs hneeds hok
    rcases create_zip_ok_elim resolve t a zip_file trace d hok with
      ⟨m2, ms2, bp, ba, hneeds2, halready2, htrace, hd⟩
    rw [hneeds] at hneeds2
    injection hneeds2 with h
    injection h with h1 h2
    subst h1
    intro m hm
    rw [htrace]
    simp only [List.mem_append]
    exact Or.inl (Or.inr (List.mem_map_of_mem _ hm))

/-- Claim C6: in every successful run the serialized payload descriptor is
written at the fixed path `payload_descriptor.json` as the last archive
write: the trace is the incoming archive followed by the blob writes, then
the manifest writes, then the descriptor entry, and no write of this run
other than the final one uses the descriptor path. -/
theorem create_zip_descriptor_written_last {ε : Type} (resolve : Resolver ε)
    (t a : List String) (zip_file trace : ZipTrace) (d : PayloadDescriptor)
    (hok : create_zip_from_docker_images resolve t a zip_file =
      Except.ok (trace, d)) :
    ∃ blob_writes manifest_writes : ZipTrace,
      trace = zip_file ++ blob_writes ++ manifest_writes ++
        [("payload_descriptor.json", ZipContent.descriptorJson d)] ∧
      (∀ e ∈ blob_writes, ∃ dg : String,
        e = ("blobs/" ++ dg, ZipContent.blobBytes dg)) ∧
      (∀ e ∈ manifest_writes, ∃ (i : String) (c : ManifestContent),
        e = ("manifests/" ++ i, ZipContent.manifestBody c)) ∧
      (∀ e ∈ blob_writes, e.1 ≠ "payload_descriptor.json") ∧
      (∀ e ∈ manifest_writes, e.1 ≠ "payload_descriptor.json") := by
  rcases create_zip_ok_elim resolve t a zip_file trace d hok with
    ⟨manifests, ms2, bp, ba, hneeds, halready, htrace, hd⟩
  subst hd
  refine ⟨_, _, htrace, ?_, ?_, ?_, ?_⟩
  · intro e he
    rcases List.mem_map.mp he with ⟨x, -, hxe⟩
    exact ⟨x.digest, hxe.symm⟩
  · intro e he
    rcases List.mem_map.mp he with ⟨m, -, hme⟩
    exact ⟨m.docker_image_name, select_single_manifest m.content, hme.symm⟩
  · intro e he
    rcases List.mem_map.mp he with ⟨x, -, hxe⟩
    rw [← hxe]
    exact blobs_path_ne_descriptor x.digest
  · intro e he
    rcases List.mem_map.mp he with ⟨m, -, hme⟩
    rw [← hme]
    exact manifests_path_ne_descriptor m.docker_image_name

/-- Claim C7: the partition places each to-transfer image in exactly one of
its two output lists, decided by exact image-name membership in the
already-transferred list and preserving input order; an image present in
both lists is only recorded as skipped: it is absent from the needs-work
images of the plan, receives no manifest path, and no manifest of the
needs-work resolution pass is for it. -/
theorem separate_images_spec :
    (∀ t a : List String,
      separate_images_to_transfer_and_images_to_skip t a =
        (t.filter (fun i => decide (i ∉ a)),
         t.filter (fun i => decide (i ∈ a)))) ∧
    (∀ (t a : List String) (i : String),
      (i ∈ (separate_images_to_transfer_and_images_to_skip t a).1 ↔
        i ∈ t ∧ i ∉ a) ∧
      (i ∈ (separate_images_to_transfer_and_images_to_skip t a).2 ↔
        i ∈ t ∧ i ∈ a)) ∧
    (∀ (ε : Type) (resolve : Resolver ε) (t a : List String)
      (zip_file trace : ZipTrace) (d : PayloadDescriptor) (img : String),
      img ∈ t → img ∈ a →
      create_zip_from_docker_images resolve t a zip_file =
        Except.ok (trace, d) →
      img ∉ d.images ∧ img ∈ d.skipped_images ∧
      d.manifests_paths.lookup img = none ∧
      ∀ (manifests : List Manifest) (blobs : List Blob),
        get_manifests_and_list_of_all_blobs resolve
          (separate_images_to_transfer_and_images_to_skip t a).1 =
          Except.ok (manifests, blobs) →
        ∀ m ∈ manifests, m.docker_image_name ≠ img) := by
  have hmem12 : ∀ (t a : List String) (i : String),
      (i ∈ (separate_images_to_transfer_and_images_to_skip t a).1 ↔
        i ∈ t ∧ i ∉ a) ∧
      (i ∈ (separate_images_to_transfer_and_images_to_skip t a).2 ↔
        i ∈ t ∧ i ∈ a) := by
    intro t a i
    rw [separate_images_eq_filter]
    constructor
    · simp [List.mem_filter]
    · simp [List.mem_filter]
  refine ⟨separate_images_eq_filter, hmem12, ?_⟩
  intro ε resolve t a zip_file trace d img hit hia hok
  rcases create_zip_ok_elim resolve t a zip_file trace d hok with
    ⟨manifests, ms2, bp, ba, hneeds, halready, htrace, hd⟩
  subst hd
  have hnotneeds : img ∉ (separate_images_to_transfer_and_images_to_skip
      t a).1 := by
    intro hc
    exact (((hmem12 t a img).1).mp hc).2 hia
  refine ⟨?_, ?_, ?_, ?_⟩
  · simpa [planned_descriptor] using hnotneeds
  · simp only [planned_descriptor]
    exact ((hmem12 t a img).2).mpr ⟨hit, hia⟩
  · simp only [planned_descriptor]
    exact lookup_map_self_none (fun i => "manifests/" ++ i) _ img hnotneeds
  · intro manifests2 blobs2 hneeds2 m hm hc
    have hnames := get_manifests_ok_names resolve _ manifests2 blobs2 hneeds2
    apply hnotneeds
    rw [← hnames, ← hc]
    exact List.mem_map_of_mem Manifest.docker_image_name hm

/-- Claim C8: if resolving any image of the needs-work list fails, then
`create_zip_from_docker_images` fails with a resolver error of a needs-work
image (the first failing one), producing no archive trace and no payload
descriptor. -/
theorem create_zip_error_propagation {ε : Type} (resolve : Resolver ε)
    (t a : List String) (zip_file : ZipTrace)
    (hfail : ∃ img ∈ (separate_images_to_transfer_and_images_to_skip t a).1,
      ∃ e : ε, resolve img = Except.error e) :
    ∃ e : ε, create_zip_from_docker_images resolve t a zip_file =
        Except.error e ∧
      ∃ img ∈ (separate_images_to_transfer_and_images_to_skip t a).1,
        resolve img = Except.error e := by
  rcases get_manifests_error_of resolve _ hfail with ⟨e, herr, img, hmem, hres⟩
  refine ⟨e, ?_, img, hmem, hres⟩
  rw [create_zip_from_docker_images]
  simp only [PayloadDescriptor.from_images,
    PayloadDescriptor.get_images_not_transferred_yet]
  rw [herr]

/-- Concrete instantiation of the theorem of claim C1: two occurrences of digest
`d1`, entry determined by the first. -/
theorem add_blobs_to_zip_one_placement_per_digest_witness :
    (add_blobs_to_zip [] [Blob.mk "d1" "a", Blob.mk "d1" "b"] []).2.lookup
        "d1" = some (classify_blob [] (Blob.mk "d1" "a")) :=
  (add_blobs_to_zip_one_placement_per_digest []
    [Blob.mk "d1" "a", Blob.mk "d1" "b"] []).2.2.1 (Blob.mk "d1" "a")
    (by decide)

/-- Concrete instantiation of the theorem of claim C2: digest `d1` already at the
destination under repository `r`. -/
theorem add_blobs_to_zip_already_transferred_witness :
    (add_blobs_to_zip [] [Blob.mk "d1" "a"] [Blob.mk "d1" "r"]).2.lookup
        "d1" = some (BlobPlacement.BlobLocationInRegistry "r") ∧
    ∃ appended : ZipTrace,
      (add_blobs_to_zip [] [Blob.mk "d1" "a"] [Blob.mk "d1" "r"]).1 =
        [] ++ appended ∧
      ∀ entry ∈ appended, entry.2 ≠ ZipContent.blobBytes "d1" :=
  add_blobs_to_zip_already_transferred [] [Blob.mk "d1" "a"]
    [Blob.mk "d1" "r"] (Blob.mk "d1" "a") (Blob.mk "d1" "r") (by decide)
    (by decide)

/-- Concrete instantiation of the theorem of claim C3: an index with `linux/amd64`
and `linux/arm64` variants always selects the body of the former. -/
theorem create_zip_manifest_selection_witness :
    select_single_manifest (ManifestContent.index
      [("linux/amd64", "M1"), ("linux/arm64", "M2")]) =
      ManifestContent.single "M1" :=
  (@create_zip_manifest_selection Unit).1
    [("linux/amd64", "M1"), ("linux/arm64", "M2")] "M1" (by decide)

/-- Concrete instantiation of the theorem of claim C5: a fresh digest is bundled
at `blobs/d1` and pulled exactly once. -/
theorem add_blobs_to_zip_bundles_fresh_witness :
    (add_blobs_to_zip [] [Blob.mk "d1" "a"] []).2.lookup "d1" =
      some (BlobPlacement.BlobPathInZip ("blobs/" ++ "d1")) ∧
    ∃ appended : ZipTrace,
      (add_blobs_to_zip [] [Blob.mk "d1" "a"] []).1 = [] ++ appended ∧
      appended.countP (fun entry => entry ==
        ("blobs/" ++ "d1", ZipContent.blobBytes "d1")) = 1 :=
  add_blobs_to_zip_bundles_fresh [] [Blob.mk "d1" "a"] [] (Blob.mk "d1" "a")
    (by decide) rfl

/-- Concrete instantiation of the theorem of claim C6 on a one-image run. -/
theorem create_zip_descriptor_written_last_witness :
    ∃ blob_writes manifest_writes : ZipTrace,
      [("manifests/" ++ "app", ZipContent.manifestBody
          (select_single_manifest (ManifestContent.single "m"))),
       ("payload_descriptor.json", ZipContent.descriptorJson
          (planned_descriptor ["app"] [] [] []))] =
        [] ++ blob_writes ++ manifest_writes ++
          [("payload_descriptor.json", ZipContent.descriptorJson
            (planned_descriptor ["app"] [] [] []))] ∧
      (∀ e ∈ blob_writes, ∃ dg : String,
        e = ("blobs/" ++ dg, ZipContent.blobBytes dg)) ∧
      (∀ e ∈ manifest_writes, ∃ (i : String) (c : ManifestContent),
        e = ("manifests/" ++ i, ZipContent.manifestBody c)) ∧
      (∀ e ∈ blob_writes, e.1 ≠ "payload_descriptor.json") ∧
      (∀ e ∈ manifest_writes, e.1 ≠ "payload_descriptor.json") :=
  create_zip_descriptor_written_last witness_resolve ["app"] [] []
    [("manifests/" ++ "app", ZipContent.manifestBody
        (select_single_manifest (ManifestContent.single "m"))),
     ("payload_descriptor.json", ZipContent.descriptorJson
        (planned_descriptor ["app"] [] [] []))]
    (planned_descriptor ["app"] [] [] []) (by rfl)

/-- Concrete instantiation of the theorem of claim C7: `app` in both lists is only
recorded as skipped. -/
theorem separate_images_spec_witness :
    "app" ∉ (planned_descriptor ["app"] ["app"] [] []).images ∧
    "app" ∈ (planned_descriptor ["app"] ["app"] [] []).skipped_images ∧
    (planned_descriptor ["app"] ["app"] [] []).manifests_paths.lookup "app" =
      none ∧
    ∀ (manifests : List Manifest) (blobs : List Blob),
      get_manifests_and_list_of_all_blobs witness_resolve
        (separate_images_to_transfer_and_images_to_skip ["app"] ["app"]).1 =
        Except.ok (manifests, blobs) →
      ∀ m ∈ manifests, m.docker_image_name ≠ "app" :=
  separate_images_spec.2.2 Unit witness_resolve ["app"] ["app"] []
    [("payload_descriptor.json", ZipContent.descriptorJson
      (planned_descriptor ["app"] ["app"] [] []))]
    (planned_descriptor ["app"] ["app"] [] []) "app" (by decide) (by decide)
    (by rfl)

/-- Concrete instantiation of the theorem of claim C8: a failing resolver makes
the whole run fail with its error. -/
theorem create_zip_error_propagation_witness :
    ∃ e : Unit, create_zip_from_docker_images witness_resolve_fail
        ["app"] [] [] = Except.error e ∧
      ∃ img ∈ (separate_images_to_transfer_and_images_to_skip
        ["app"] []).1, witness_resolve_fail img = Except.error e :=
  create_zip_error_propagation witness_resolve_fail ["app"] [] []
    ⟨"app", by decide, (), rfl⟩

/-- Concrete instantiation of the theorem of claim C10: with two
already-transferred blobs of digest `d1`, the earliest repository wins. -/
theorem get_blob_with_same_digest_spec_witness :
    (add_blobs_to_zip [] [Blob.mk "d1" "x"]
      ([Blob.mk "d2" "q"] ++ Blob.mk "d1" "r1" ::
        [Blob.mk "d1" "r2"])).2.lookup "d1" =
      some (BlobPlacement.BlobLocationInRegistry "r1") :=
  get_blob_with_same_digest_spec.2.2.2 [] [Blob.mk "d1" "x"]
    [Blob.mk "d2" "q"] [Blob.mk "d1" "r2"] (Blob.mk "d1" "r1")
    (Blob.mk "d1" "x") (by decide) rfl (by decide)

end DockerCharon
